import Mathlib

/-
Verification of the projects API views of `scienceapi` (file
`scienceapi/projects/views.py`): the project list endpoint
(equality filters, free-text search, ordering, pagination), the project
detail endpoint (expand-based serializer selection and public-only
resolution), and the public-visibility invariant.

The view configuration (search fields, ordering fields, filter classes,
the `get_serializer_class` branching, `get_search_terms`) is embedded
directly from the source.  The parts of the behaviour that live outside
this file in the real system — the model manager's `public()` queryset,
the framework's search/filter/ordering/pagination machinery — are
modelled from the specification and marked as such in their doc comments.
-/

/-- The serializer classes imported by `views.py` from
`scienceapi.projects.serializers`; only their identity matters for the
branch-selection logic, not their field lists. -/
inductive Serializer where
  | ProjectSerializer
  | CategorySerializer
  | ProjectUserSerializer
  | ProjectEventSerializer
  | ProjectExpandAllSerializer
  | ProjectWithGithubSerializer
deriving DecidableEq

/-- Auxiliary recursion for `pySplit`: walks the character list keeping
the (reversed) current chunk, emitting a chunk at every comma.  Python's
`str.split(',')` never drops chunks, so the empty string yields `[""]`
and a trailing comma yields a trailing `""`. -/
def splitCommaAux : List Char → List Char → List String
  | [], acc => [String.mk acc.reverse]
  | c :: cs, acc =>
    if c = ',' then String.mk acc.reverse :: splitCommaAux cs []
    else splitCommaAux cs (c :: acc)

/-- Python's `s.split(',')` as used in `ProjectView.get_serializer_class`
(`expand.split(',')`) and `ProjectSearchFilter.get_search_terms`
(`params.split(',')`). -/
def pySplit (s : String) : List String :=
  splitCommaAux s.toList []

/-- The branch selection of `ProjectView.get_serializer_class` applied to
the already-split token list `expand`: the exact `if/elif/elif/else`
chain of the source, with membership tests `'users' in expand` /
`'events' not in expand`. -/
def select_expand_serializer (expand : List String) : Serializer :=
  if "users" ∈ expand ∧ "events" ∉ expand then
    Serializer.ProjectUserSerializer
  else if "events" ∈ expand ∧ "users" ∉ expand then
    Serializer.ProjectEventSerializer
  else if "events" ∈ expand ∧ "users" ∈ expand then
    Serializer.ProjectExpandAllSerializer
  else
    Serializer.ProjectWithGithubSerializer

/-- `ProjectView.get_serializer_class`: reads the `expand` query
parameter (`None` when absent); when present splits it on commas and
dispatches through the `if/elif` chain, otherwise returns
`ProjectWithGithubSerializer`. -/
def get_serializer_class (expandParam : Option String) : Serializer :=
  match expandParam with
  | some expand => select_expand_serializer (pySplit expand)
  | none => Serializer.ProjectWithGithubSerializer

/-- A project row as the views see it (spec §3): scalar fields used by
search and ordering, the public-visibility flag, and the names of the
related tags and categories (the only attribute of those relations the
filters touch, via `tags__name` / `categories__name`).  Timestamps are
modelled as naturals. -/
structure Project where
  id : Nat
  name : String
  institution : String
  description : String
  short_description : String
  license : String
  date_created : Nat
  date_updated : Nat
  is_public : Bool
  tags : List String
  categories : List String
deriving DecidableEq

/-- ASCII case folding of a string, character by character: the common
case-insensitive comparison underlying the `iexact` / `icontains`
lookups. -/
def lowerStr (s : String) : String :=
  String.mk (s.toList.map Char.toLower)

/-- Case-insensitive full-field equality: the ORM `iexact` lookup used
by the tag/category filters and the `=`-prefixed search fields. -/
def iexact (field v : String) : Bool :=
  lowerStr field == lowerStr v

/-- Boolean infix test on character lists (needle, then haystack),
structurally recursive on the haystack. -/
def listInfix (n : List Char) : List Char → Bool
  | [] => n.isEmpty
  | c :: hs => n.isPrefixOf (c :: hs) || listInfix n hs

/-- Case-insensitive substring containment: the ORM `icontains` lookup
used by the unprefixed search fields. -/
def icontains (field v : String) : Bool :=
  listInfix (lowerStr v).toList (lowerStr field).toList

/-- Modelled from the spec: `Project.objects.public()` (the manager
lives in `scienceapi/projects/models.py`, which is not part of the view
source): the base queryset of both project endpoints, restricted at the
query source to projects whose visibility flag is public. -/
def objects_public (db : List Project) : List Project :=
  db.filter (fun p => p.is_public)

/-- The `tags` filter of `ProjectCustomFilter`: a single value matched
with `iexact` against `tags__name`; the cross-relation matching itself
is modelled from the spec (the filter library is external): a project
passes when some related tag's name matches case-insensitively.  An
absent parameter imposes no constraint. -/
def filter_tags (tagsParam : Option String) (ps : List Project) : List Project :=
  match tagsParam with
  | none => ps
  | some v => ps.filter (fun p => p.tags.any (fun t => iexact t v))

/-- The `categories` filter of `ProjectCustomFilter`: as `filter_tags`,
with `iexact` against `categories__name`. -/
def filter_categories (catParam : Option String) (ps : List Project) : List Project :=
  match catParam with
  | none => ps
  | some v => ps.filter (fun p => p.categories.any (fun c => iexact c v))

/-- `ProjectSearchFilter.get_search_terms`: reads the `search` query
parameter (defaulting to the empty string when absent) and splits it on
commas — no trimming, no deduplication, so the empty string yields the
single empty term. -/
def get_search_terms (searchParam : Option String) : List String :=
  pySplit (searchParam.getD "")

/-- One search term matched against the `search_fields` configuration of
`ProjectsListView`: `name`, `description` and `short_description` by
case-insensitive substring containment; `=institution`, `=license`,
`=tags__name` and `=categories__name` by case-insensitive full-field
equality. -/
def matchesTerm (p : Project) (term : String) : Bool :=
  icontains p.name term ||
  iexact p.institution term ||
  icontains p.description term ||
  icontains p.short_description term ||
  iexact p.license term ||
  p.tags.any (fun t => iexact t term) ||
  p.categories.any (fun c => iexact c term)

/-- Modelled from the spec: the framework search filter keeps a project
when ANY of the terms produced by `get_search_terms` matches ANY
searchable field ("the search is satisfied if ANY term matches ANY of
the configured searchable fields"). -/
def filter_search (searchParam : Option String) (ps : List Project) : List Project :=
  ps.filter (fun p => (get_search_terms searchParam).any (fun t => matchesTerm p t))

/-- The `ordering_fields` configuration of `ProjectsListView`. -/
def ordering_fields : List String :=
  ["date_created", "date_updated"]

/-- Modelled from the spec for the framework ordering filter, driven by
the source's `ordering_fields`: the `sort` parameter selects
`date_created` or `date_updated`, a leading `-` reverses to descending,
and anything else leaves the sequence unchanged (no recognized ordering
term). -/
def filter_ordering (sortParam : Option String) (ps : List Project) : List Project :=
  match sortParam with
  | none => ps
  | some s =>
    if s = "date_created" then
      ps.insertionSort (fun a b => a.date_created ≤ b.date_created)
    else if s = "-date_created" then
      ps.insertionSort (fun a b => b.date_created ≤ a.date_created)
    else if s = "date_updated" then
      ps.insertionSort (fun a b => a.date_updated ≤ b.date_updated)
    else if s = "-date_updated" then
      ps.insertionSort (fun a b => b.date_updated ≤ a.date_updated)
    else ps

/-- Modelled from the spec: `PageNumberPagination` with an externally
defined page size — page `n` (1-based) of the result sequence. -/
def paginate (pageSize page : Nat) (ps : List Project) : List Project :=
  (ps.drop ((page - 1) * pageSize)).take pageSize

/-- The query parameters recognized by the project list endpoint. -/
structure QueryParams where
  tags : Option String
  categories : Option String
  search : Option String
  sort : Option String
  page : Nat
deriving DecidableEq

/-- A request with no query parameters (page defaults to 1). -/
def defaultParams : QueryParams :=
  ⟨none, none, none, none, 1⟩

/-- The filter pipeline of `ProjectsListView`, in the order of its
`filter_backends` tuple: the `DjangoFilterBackend` equality filters
(`tags` then `categories`, the declaration order of
`ProjectCustomFilter`), then `ProjectSearchFilter`, then the ordering
filter. -/
def filter_queryset (qp : QueryParams) (ps : List Project) : List Project :=
  filter_ordering qp.sort
    (filter_search qp.search
      (filter_categories qp.categories
        (filter_tags qp.tags ps)))

/-- The project list endpoint: the public base queryset, the filter
pipeline, then pagination (`pageSize = none` models the unpaginated
configuration where no page size is set). -/
def listProjects (pageSize : Option Nat) (db : List Project) (qp : QueryParams) :
    List Project :=
  match pageSize with
  | none => filter_queryset qp (objects_public db)
  | some n => paginate n qp.page (filter_queryset qp (objects_public db))

/-- The detail endpoint's object resolution (`RetrieveAPIView` over
`queryset = Project.objects.public()`): exactly one public project with
the requested id, `none` (NotFound) otherwise. -/
def get_object (db : List Project) (pid : Nat) : Option Project :=
  match (objects_public db).filter (fun p => p.id == pid) with
  | [p] => some p
  | _ => none

/-- Fixture: a public project row. -/
def pA : Project :=
  ⟨1, "a", "i", "d", "s", "mit", 1, 1, true, ["t"], ["c"]⟩

/-- Fixture: a non-public project row. -/
def pB : Project :=
  ⟨2, "b", "i", "d", "s", "mit", 1, 1, false, ["t"], ["c"]⟩

/-- Fixture for the pipeline-composition claims: matches every filter of
`qp9`, latest creation date. -/
def q1 : Project :=
  ⟨1, "alpha", "i", "d", "s", "mit", 3, 3, true, ["t"], ["c"]⟩

/-- Fixture: matches every filter of `qp9`, middle creation date — the
row the combined request returns. -/
def q2 : Project :=
  ⟨2, "alpha", "i", "d", "s", "mit", 1, 1, true, ["t"], ["c"]⟩

/-- Fixture: excluded only by the `tags` filter. -/
def q3 : Project :=
  ⟨3, "alpha", "i", "d", "s", "mit", 0, 0, true, [], ["c"]⟩

/-- Fixture: excluded only by the search stage. -/
def q4 : Project :=
  ⟨4, "beta", "i", "d", "s", "mit", 0, 0, true, ["t"], ["c"]⟩

/-- Fixture: excluded only by the `categories` filter. -/
def q5 : Project :=
  ⟨5, "alpha", "i", "d", "s", "mit", 0, 0, true, ["t"], []⟩

/-- Fixture database for the pipeline-composition claims. -/
def db9 : List Project :=
  [q1, q2, q3, q4, q5]

/-- A combined request exercising every stage of the list pipeline. -/
def qp9 : QueryParams :=
  ⟨some "t", some "c", some "alpha", some "date_created", 1⟩

theorem select_expand_neither {l : List String}
    (hu : "users" ∉ l) (he : "events" ∉ l) :
    select_expand_serializer l = Serializer.ProjectWithGithubSerializer := by
  simp [select_expand_serializer, hu, he]

theorem select_expand_users_only {l : List String}
    (hu : "users" ∈ l) (he : "events" ∉ l) :
    select_expand_serializer l = Serializer.ProjectUserSerializer := by
  simp [select_expand_serializer, hu, he]

theorem select_expand_events_only {l : List String}
    (he : "events" ∈ l) (hu : "users" ∉ l) :
    select_expand_serializer l = Serializer.ProjectEventSerializer := by
  simp [select_expand_serializer, hu, he]

theorem select_expand_both {l : List String}
    (hu : "users" ∈ l) (he : "events" ∈ l) :
    select_expand_serializer l = Serializer.ProjectExpandAllSerializer := by
  simp [select_expand_serializer, hu, he]

theorem select_expand_serializer_ext {l₁ l₂ : List String}
    (hu : ("users" ∈ l₁) ↔ ("users" ∈ l₂))
    (he : ("events" ∈ l₁) ↔ ("events" ∈ l₂)) :
    select_expand_serializer l₁ = select_expand_serializer l₂ := by
  by_cases h₁ : "users" ∈ l₁ <;> by_cases h₂ : "events" ∈ l₁
  · rw [select_expand_both h₁ h₂, select_expand_both (hu.mp h₁) (he.mp h₂)]
  · rw [select_expand_users_only h₁ h₂,
      select_expand_users_only (hu.mp h₁) (fun h => h₂ (he.mpr h))]
  · rw [select_expand_events_only h₂ h₁,
      select_expand_events_only (he.mp h₂) (fun h => h₁ (hu.mpr h))]
  · rw [select_expand_neither h₁ h₂,
      select_expand_neither (fun h => h₁ (hu.mpr h)) (fun h => h₂ (he.mpr h))]

theorem listInfix_iff (n h : List Char) : listInfix n h = true ↔ n <:+: h := by
  induction h with
  | nil =>
    simp [listInfix, List.isEmpty_iff, List.infix_nil]
  | cons c hs ih =>
    simp [listInfix, ih, List.infix_cons_iff, List.isPrefixOf_iff_prefix]

theorem listInfix_nil_left (h : List Char) : listInfix [] h = true :=
  (listInfix_iff [] h).mpr List.nil_infix

/-- The empty search term `icontains`-matches every field value
(`LIKE '%%'`). -/
theorem icontains_empty (s : String) : icontains s "" = true :=
  listInfix_nil_left _

theorem matchesTerm_empty (p : Project) : matchesTerm p "" = true := by
  simp [matchesTerm, icontains_empty]

/-- An absent `search` parameter imposes no constraint: the single empty
term produced by `get_search_terms` matches every project. -/
theorem filter_search_none (ps : List Project) : filter_search none ps = ps := by
  have hterms : get_search_terms none = [""] := by decide
  unfold filter_search
  rw [hterms]
  apply List.filter_eq_self.mpr
  intro p _
  simp [matchesTerm_empty]

theorem matchesTerm_iff (p : Project) (term : String) :
    matchesTerm p term = true ↔
      ((lowerStr term).toList <:+: (lowerStr p.name).toList ∨
       lowerStr p.institution = lowerStr term ∨
       (lowerStr term).toList <:+: (lowerStr p.description).toList ∨
       (lowerStr term).toList <:+: (lowerStr p.short_description).toList ∨
       lowerStr p.license = lowerStr term ∨
       (∃ t ∈ p.tags, lowerStr t = lowerStr term) ∨
       (∃ c ∈ p.categories, lowerStr c = lowerStr term)) := by
  simp only [matchesTerm, Bool.or_eq_true, icontains, iexact, listInfix_iff,
    beq_iff_eq, List.any_eq_true, or_assoc]

theorem filter_tags_sublist (v : Option String) (ps : List Project) :
    (filter_tags v ps).Sublist ps := by
  cases v with
  | none => exact List.Sublist.refl ps
  | some s => exact List.filter_sublist ps

theorem filter_categories_sublist (v : Option String) (ps : List Project) :
    (filter_categories v ps).Sublist ps := by
  cases v with
  | none => exact List.Sublist.refl ps
  | some s => exact List.filter_sublist ps

theorem filter_search_sublist (v : Option String) (ps : List Project) :
    (filter_search v ps).Sublist ps :=
  List.filter_sublist ps

theorem filter_ordering_perm (v : Option String) (ps : List Project) :
    (filter_ordering v ps).Perm ps := by
  cases v with
  | none => exact List.Perm.refl ps
  | some s =>
    simp only [filter_ordering]
    split_ifs <;> first
      | exact List.perm_insertionSort _ _
      | exact List.Perm.refl ps

theorem paginate_sublist (n pg : Nat) (ps : List Project) :
    (paginate n pg ps).Sublist ps :=
  (List.take_sublist _ _).trans (List.drop_sublist _ _)

theorem mem_of_filter_queryset {qp : QueryParams} {ps : List Project} {p : Project}
    (h : p ∈ filter_queryset qp ps) : p ∈ ps := by
  unfold filter_queryset at h
  have h₁ := (filter_ordering_perm qp.sort _).subset h
  have h₂ := (filter_search_sublist qp.search _).subset h₁
  have h₃ := (filter_categories_sublist qp.categories _).subset h₂
  exact (filter_tags_sublist qp.tags _).subset h₃

theorem get_object_eq_some_iff (db : List Project) (pid : Nat) (p : Project) :
    get_object db pid = some p ↔
      (objects_public db).filter (fun x => x.id == pid) = [p] := by
  unfold get_object
  cases hf : (objects_public db).filter (fun x => x.id == pid) with
  | nil => simp
  | cons a t =>
    cases t with
    | nil => simp
    | cons b u => simp

theorem eq_singleton_of_nodup {l : List Project} {a : Project}
    (hnd : l.Nodup) (hmem : a ∈ l) (hall : ∀ x ∈ l, x = a) : l = [a] := by
  cases l with
  | nil => cases hmem
  | cons b t =>
    have hb : b = a := hall b (List.mem_cons_self b t)
    subst hb
    cases t with
    | nil => rfl
    | cons c u =>
      have hc : c = b := hall c (List.mem_cons_of_mem _ (List.mem_cons_self c u))
      have hmem' : b ∈ c :: u := by rw [← hc]; exact List.mem_cons_self c u
      exact absurd hmem' (List.nodup_cons.mp hnd).1

/-- Claim C1: on the project detail endpoint the output shape is a pure
function of the set of tokens obtained by splitting `expand` on commas —
order- and duplicate-insensitive — with exactly four branches: neither
`users` nor `events` gives `ProjectWithGithubSerializer`, `users` alone
gives `ProjectUserSerializer`, `events` alone gives
`ProjectEventSerializer`, and both give `ProjectExpandAllSerializer`. -/
theorem projectView_expand_branch_table (e₁ e₂ : String)
    (hset : ∀ t, t ∈ pySplit e₁ ↔ t ∈ pySplit e₂) :
    get_serializer_class (some e₁) = get_serializer_class (some e₂) ∧
    ∀ e : String,
      ("users" ∉ pySplit e ∧ "events" ∉ pySplit e →
        get_serializer_class (some e) = Serializer.ProjectWithGithubSerializer) ∧
      ("users" ∈ pySplit e ∧ "events" ∉ pySplit e →
        get_serializer_class (some e) = Serializer.ProjectUserSerializer) ∧
      ("events" ∈ pySplit e ∧ "users" ∉ pySplit e →
        get_serializer_class (some e) = Serializer.ProjectEventSerializer) ∧
      ("users" ∈ pySplit e ∧ "events" ∈ pySplit e →
        get_serializer_class (some e) = Serializer.ProjectExpandAllSerializer) := by
  refine ⟨select_expand_serializer_ext (hset "users") (hset "events"), fun e => ?_⟩
  exact ⟨fun h => select_expand_neither h.1 h.2,
    fun h => select_expand_users_only h.1 h.2,
    fun h => select_expand_events_only h.1 h.2,
    fun h => select_expand_both h.1 h.2⟩

/-- Witness for C1: the token sets of `users,events` and
`events,users,users` coincide, so the same serializer is selected; and
`users,extra` selects the users-inlined serializer. -/
theorem projectView_expand_branch_table_witness :
    get_serializer_class (some "users,events") =
      get_serializer_class (some "events,users,users") ∧
    get_serializer_class (some "users,extra") = Serializer.ProjectUserSerializer := by
  have h₁ : pySplit "users,events" = ["users", "events"] := by decide
  have h₂ : pySplit "events,users,users" = ["events", "users", "users"] := by decide
  have hset : ∀ t, t ∈ pySplit "users,events" ↔ t ∈ pySplit "events,users,users" := by
    intro t
    rw [h₁, h₂]
    simp only [List.mem_cons, List.not_mem_nil, or_false]
    tauto
  have h := projectView_expand_branch_table "users,events" "events,users,users" hset
  exact ⟨h.1, (h.2 "users,extra").2.1 ⟨by decide, by decide⟩⟩

/-- Claim C7: a request with no `expand` parameter and a request with
`expand=` (the empty string) both select the base shape
`ProjectWithGithubSerializer`, the same as the "neither" branch. -/
theorem projectView_absent_and_empty_expand :
    get_serializer_class none = Serializer.ProjectWithGithubSerializer ∧
    get_serializer_class (some "") = Serializer.ProjectWithGithubSerializer ∧
    get_serializer_class (some "") = get_serializer_class none := by
  refine ⟨rfl, by decide, by decide⟩

/-- Claim C8: tokens other than `users` and `events` are ignored by the
expand dispatch: the (total) selection function never errors, inserting
or removing such a token anywhere in the token list never changes the
selected serializer, and the dispatch on a raw parameter value is
exactly the dispatch on its comma-split token list. -/
theorem projectView_unrecognized_tokens (t : String)
    (hu : t ≠ "users") (he : t ≠ "events") (l₁ l₂ : List String) :
    select_expand_serializer (l₁ ++ t :: l₂) = select_expand_serializer (l₁ ++ l₂) ∧
    ∀ e : String, get_serializer_class (some e) = select_expand_serializer (pySplit e) := by
  refine ⟨select_expand_serializer_ext ?_ ?_, fun e => rfl⟩
  · simp [List.mem_append, List.mem_cons, Ne.symm hu]
  · simp [List.mem_append, List.mem_cons, Ne.symm he]

/-- Witness for C8: inserting the unrecognized token `featured` after
`users` leaves the selection unchanged. -/
theorem projectView_unrecognized_tokens_witness :
    select_expand_serializer (["users"] ++ "featured" :: []) =
      select_expand_serializer (["users"] ++ []) :=
  (projectView_unrecognized_tokens "featured" (by decide) (by decide) ["users"] []).1

/-- Claim C10: expand-token matching is case-sensitive exact string
matching: `Users` and `EVENTS` are unrecognized and select the base
shape, while lowercase `users` is recognized; in general any single
token other than the literal `users` / `events` selects the base shape. -/
theorem projectView_expand_case_sensitive :
    get_serializer_class (some "Users") = Serializer.ProjectWithGithubSerializer ∧
    get_serializer_class (some "EVENTS") = Serializer.ProjectWithGithubSerializer ∧
    get_serializer_class (some "users") = Serializer.ProjectUserSerializer ∧
    ∀ t : String, t ≠ "users" → t ≠ "events" →
      select_expand_serializer [t] = Serializer.ProjectWithGithubSerializer := by
  refine ⟨by decide, by decide, by decide, fun t hu he => ?_⟩
  apply select_expand_neither <;> simp [List.mem_singleton, Ne.symm hu, Ne.symm he]

/-- Witness for C10: the case-varied token `Events` selects the base
shape. -/
theorem projectView_expand_case_sensitive_witness :
    select_expand_serializer ["Events"] = Serializer.ProjectWithGithubSerializer :=
  projectView_expand_case_sensitive.2.2.2 "Events" (by decide) (by decide)

/-- Claim C2: a project appears in the base queryset of the list and
detail endpoints iff it is flagged public; every list result and every
resolved detail object is public (the restriction is enforced at the
query source, which every later stage refines); and a public project
does appear — in the unfiltered list, and as the detail result for its
id when ids are unique. -/
theorem public_visibility_invariant (db : List Project) (p : Project) :
    (p ∈ objects_public db ↔ p ∈ db ∧ p.is_public = true) ∧
    (∀ pageSize qp, p ∈ listProjects pageSize db qp → p.is_public = true) ∧
    (∀ pid q, get_object db pid = some q → q.is_public = true) ∧
    (p ∈ db → p.is_public = true → p ∈ listProjects none db defaultParams) ∧
    (db.Nodup → p ∈ db → p.is_public = true →
      (∀ q, q ∈ db → q.id = p.id → q = p) → get_object db p.id = some p) := by
  have hbase : listProjects none db defaultParams = objects_public db :=
    filter_search_none (objects_public db)
  refine ⟨List.mem_filter, ?_, ?_, ?_, ?_⟩
  · intro pageSize qp hp
    have hmem : p ∈ objects_public db := by
      cases pageSize with
      | none => exact mem_of_filter_queryset hp
      | some n => exact mem_of_filter_queryset ((paginate_sublist n qp.page _).subset hp)
    exact (List.mem_filter.mp hmem).2
  · intro pid q hq
    have hf := (get_object_eq_some_iff db pid q).mp hq
    have hqmem : q ∈ (objects_public db).filter (fun x => x.id == pid) := by
      rw [hf]; exact List.mem_singleton_self q
    exact (List.mem_filter.mp (List.mem_filter.mp hqmem).1).2
  · intro hdb hpub
    rw [hbase]
    exact List.mem_filter.mpr ⟨hdb, hpub⟩
  · intro hnd hdb hpub huniq
    rw [get_object_eq_some_iff]
    apply eq_singleton_of_nodup ((hnd.filter _).filter _)
    · exact List.mem_filter.mpr ⟨List.mem_filter.mpr ⟨hdb, hpub⟩, by simp⟩
    · intro x hx
      have hx₁ := List.mem_filter.mp hx
      have hx₂ := List.mem_filter.mp hx₁.1
      exact huniq x hx₂.1 (by simpa using hx₁.2)

/-- Witness for C2: the public fixture row appears in the unfiltered
list results and resolves on the detail endpoint. -/
theorem public_visibility_invariant_witness :
    pA ∈ listProjects none [pA] defaultParams ∧ get_object [pA] pA.id = some pA := by
  have h := public_visibility_invariant [pA] pA
  refine ⟨h.2.2.2.1 (by decide) (by decide),
    h.2.2.2.2 (by decide) (by decide) (by decide) ?_⟩
  intro q hq _
  exact List.mem_singleton.mp hq

/-- Claim C3: with both equality filters supplied, a project is in the
filtered set iff it is a public row of the database with some tag name
case-insensitively equal to the `tags` value and some category name
case-insensitively equal to the `categories` value (logical AND); an
absent parameter imposes no constraint on its dimension. -/
theorem list_equality_filters (db : List Project) (tv cv : String) (p : Project) :
    (p ∈ filter_categories (some cv) (filter_tags (some tv) (objects_public db)) ↔
      p ∈ db ∧ p.is_public = true ∧
        (∃ t ∈ p.tags, lowerStr t = lowerStr tv) ∧
        (∃ c ∈ p.categories, lowerStr c = lowerStr cv)) ∧
    (∀ ps, filter_tags none ps = ps) ∧
    (∀ ps, filter_categories none ps = ps) := by
  refine ⟨?_, fun ps => rfl, fun ps => rfl⟩
  simp only [filter_categories, filter_tags, objects_public, List.mem_filter,
    List.any_eq_true, iexact, beq_iff_eq, and_assoc]

/-- Claim C4: the `search` parameter is split on literal commas (the
empty string yielding the single empty term), and a public project
satisfies the search iff SOME term matches SOME searchable field —
substring containment (case-folded) for `name`, `description` and
`short_description`, full-field case-folded equality for `institution`,
`license`, tag names and category names. -/
theorem list_search_semantics (db : List Project) (s : String) (p : Project) :
    pySplit "" = [""] ∧
    (p ∈ filter_search (some s) (objects_public db) ↔
      p ∈ db ∧ p.is_public = true ∧
        ∃ term ∈ pySplit s,
          ((lowerStr term).toList <:+: (lowerStr p.name).toList ∨
           lowerStr p.institution = lowerStr term ∨
           (lowerStr term).toList <:+: (lowerStr p.description).toList ∨
           (lowerStr term).toList <:+: (lowerStr p.short_description).toList ∨
           lowerStr p.license = lowerStr term ∨
           (∃ t ∈ p.tags, lowerStr t = lowerStr term) ∨
           (∃ c ∈ p.categories, lowerStr c = lowerStr term))) := by
  refine ⟨by decide, ?_⟩
  simp only [filter_search, get_search_terms, Option.getD_some, objects_public,
    List.mem_filter, List.any_eq_true, matchesTerm_iff, and_assoc]

/-- Claim C5: the `sort` parameter recognizes exactly the two
`ordering_fields` of the view, `date_created` and `date_updated`, each
optionally prefixed by `-` for descending order; the resulting sequence
of timestamp values is non-decreasing for the plain field and
non-increasing for the `-`-prefixed field, the result is a permutation
of the input, and any other value leaves the sequence unchanged. -/
theorem list_ordering_semantics (ps : List Project) :
    ordering_fields = ["date_created", "date_updated"] ∧
    List.Sorted (fun a b => a.date_created ≤ b.date_created)
      (filter_ordering (some "date_created") ps) ∧
    List.Sorted (fun a b => b.date_created ≤ a.date_created)
      (filter_ordering (some "-date_created") ps) ∧
    List.Sorted (fun a b => a.date_updated ≤ b.date_updated)
      (filter_ordering (some "date_updated") ps) ∧
    List.Sorted (fun a b => b.date_updated ≤ a.date_updated)
      (filter_ordering (some "-date_updated") ps) ∧
    (∀ s : String, s ≠ "date_created" → s ≠ "-date_created" →
      s ≠ "date_updated" → s ≠ "-date_updated" →
      filter_ordering (some s) ps = ps) ∧
    (filter_ordering (some "-date_updated") ps).Perm ps := by
  haveI : IsTotal Project (fun a b => a.date_created ≤ b.date_created) :=
    ⟨fun a b => Nat.le_total _ _⟩
  haveI : IsTrans Project (fun a b => a.date_created ≤ b.date_created) :=
    ⟨fun _ _ _ h h' => Nat.le_trans h h'⟩
  haveI : IsTotal Project (fun a b => b.date_created ≤ a.date_created) :=
    ⟨fun a b => Nat.le_total _ _⟩
  haveI : IsTrans Project (fun a b => b.date_created ≤ a.date_created) :=
    ⟨fun _ _ _ h h' => Nat.le_trans h' h⟩
  haveI : IsTotal Project (fun a b => a.date_updated ≤ b.date_updated) :=
    ⟨fun a b => Nat.le_total _ _⟩
  haveI : IsTrans Project (fun a b => a.date_updated ≤ b.date_updated) :=
    ⟨fun _ _ _ h h' => Nat.le_trans h h'⟩
  haveI : IsTotal Project (fun a b => b.date_updated ≤ a.date_updated) :=
    ⟨fun a b => Nat.le_total _ _⟩
  haveI : IsTrans Project (fun a b => b.date_updated ≤ a.date_updated) :=
    ⟨fun _ _ _ h h' => Nat.le_trans h' h⟩
  have e₁ : filter_ordering (some "date_created") ps =
      ps.insertionSort (fun a b => a.date_created ≤ b.date_created) := by
    simp [filter_ordering]
  have e₂ : filter_ordering (some "-date_created") ps =
      ps.insertionSort (fun a b => b.date_created ≤ a.date_created) := by
    simp [filter_ordering]
  have e₃ : filter_ordering (some "date_updated") ps =
      ps.insertionSort (fun a b => a.date_updated ≤ b.date_updated) := by
    simp [filter_ordering]
  have e₄ : filter_ordering (some "-date_updated") ps =
      ps.insertionSort (fun a b => b.date_updated ≤ a.date_updated) := by
    simp [filter_ordering]
  refine ⟨rfl, ?_, ?_, ?_, ?_, ?_, ?_⟩
  · rw [e₁]; exact List.sorted_insertionSort _ _
  · rw [e₂]; exact List.sorted_insertionSort _ _
  · rw [e₃]; exact List.sorted_insertionSort _ _
  · rw [e₄]; exact List.sorted_insertionSort _ _
  · intro s h₁ h₂ h₃ h₄
    simp only [filter_ordering]
    rw [if_neg h₁, if_neg h₂, if_neg h₃, if_neg h₄]
  · rw [e₄]; exact List.perm_insertionSort _ _

/-- Witness for C5: an unrecognized sort value (`name`) leaves the
sequence unchanged. -/
theorem list_ordering_semantics_witness :
    filter_ordering (some "name") ([] : List Project) = [] :=
  (list_ordering_semantics []).2.2.2.2.2.1 "name"
    (by decide) (by decide) (by decide) (by decide)

/-- Claim C6: detail resolution returns NotFound (`none`) whenever no
public project carries the requested id — in particular for unknown ids
and for ids of non-public projects — and when it succeeds the returned
project is a public row with the requested id and is the only such
public row; there is no partial or default fallback. -/
theorem detail_resolution_not_found (db : List Project) (pid : Nat) :
    ((∀ p, p ∈ db → p.is_public = true → p.id ≠ pid) → get_object db pid = none) ∧
    (∀ p, get_object db pid = some p →
      p ∈ db ∧ p.is_public = true ∧ p.id = pid ∧
      ∀ q, q ∈ db → q.is_public = true → q.id = pid → q = p) := by
  constructor
  · intro hnone
    unfold get_object
    have hf : (objects_public db).filter (fun x => x.id == pid) = [] := by
      rw [List.filter_eq_nil_iff]
      intro a ha
      have h₁ := List.mem_filter.mp ha
      simpa using hnone a h₁.1 h₁.2
    rw [hf]
  · intro p hp
    have hf := (get_object_eq_some_iff db pid p).mp hp
    have hpmem : p ∈ (objects_public db).filter (fun x => x.id == pid) := by
      rw [hf]; exact List.mem_singleton_self p
    have h₁ := List.mem_filter.mp hpmem
    have h₂ := List.mem_filter.mp h₁.1
    refine ⟨h₂.1, h₂.2, by simpa using h₁.2, ?_⟩
    intro q hq hqpub hqid
    have hqmem : q ∈ (objects_public db).filter (fun x => x.id == pid) :=
      List.mem_filter.mpr ⟨List.mem_filter.mpr ⟨hq, hqpub⟩, by simp [hqid]⟩
    rw [hf] at hqmem
    exact List.mem_singleton.mp hqmem

/-- Witness for C6: requesting the id of the non-public fixture row
returns NotFound. -/
theorem detail_resolution_not_found_witness : get_object [pB] 2 = none := by
  apply (detail_resolution_not_found [pB] 2).1
  intro p hp hpub
  rw [List.mem_singleton] at hp
  subst hp
  exact absurd hpub (by decide)

/-- Claim C9: the list endpoint applies, in this fixed order, the
equality filters, then search, then ordering, then pagination; each
filtering stage yields a sublist of its input and ordering a
permutation; and on the combined request `qp9` over `db9`, skipping any
one stage — and moving any one stage across the pagination boundary —
changes the result. -/
theorem list_pipeline_composition :
    (∀ n db qp, listProjects (some n) db qp =
      paginate n qp.page
        (filter_ordering qp.sort
          (filter_search qp.search
            (filter_categories qp.categories
              (filter_tags qp.tags (objects_public db)))))) ∧
    (∀ v ps, (filter_tags v ps).Sublist ps) ∧
    (∀ v ps, (filter_categories v ps).Sublist ps) ∧
    (∀ v ps, (filter_search v ps).Sublist ps) ∧
    (∀ v ps, (filter_ordering v ps).Perm ps) ∧
    (∀ n pg ps, (paginate n pg ps).Sublist ps) ∧
    paginate 1 qp9.page (filter_ordering qp9.sort (filter_search qp9.search
      (filter_categories qp9.categories (objects_public db9)))) ≠
      listProjects (some 1) db9 qp9 ∧
    paginate 1 qp9.page (filter_ordering qp9.sort (filter_search qp9.search
      (filter_tags qp9.tags (objects_public db9)))) ≠
      listProjects (some 1) db9 qp9 ∧
    paginate 1 qp9.page (filter_ordering qp9.sort (filter_categories qp9.categories
      (filter_tags qp9.tags (objects_public db9)))) ≠
      listProjects (some 1) db9 qp9 ∧
    paginate 1 qp9.page (filter_search qp9.search (filter_categories qp9.categories
      (filter_tags qp9.tags (objects_public db9)))) ≠
      listProjects (some 1) db9 qp9 ∧
    filter_ordering qp9.sort (filter_search qp9.search (filter_categories qp9.categories
      (filter_tags qp9.tags (objects_public db9)))) ≠
      listProjects (some 1) db9 qp9 ∧
    filter_ordering qp9.sort (paginate 1 qp9.page (filter_search qp9.search
      (filter_categories qp9.categories (filter_tags qp9.tags (objects_public db9))))) ≠
      listProjects (some 1) db9 qp9 ∧
    filter_search qp9.search (paginate 1 qp9.page (filter_ordering qp9.sort
      (filter_categories qp9.categories (filter_tags qp9.tags (objects_public db9))))) ≠
      listProjects (some 1) db9 qp9 ∧
    filter_tags qp9.tags (paginate 1 qp9.page (filter_ordering qp9.sort
      (filter_search qp9.search (filter_categories qp9.categories (objects_public db9))))) ≠
      listProjects (some 1) db9 qp9 ∧
    filter_categories qp9.categories (paginate 1 qp9.page (filter_ordering qp9.sort
      (filter_search qp9.search (filter_tags qp9.tags (objects_public db9))))) ≠
      listProjects (some 1) db9 qp9 := by
  refine ⟨fun n db qp => rfl, filter_tags_sublist, filter_categories_sublist,
    filter_search_sublist, filter_ordering_perm, paginate_sublist,
    ?_, ?_, ?_, ?_, ?_, ?_, ?_, ?_, ?_⟩ <;> decide
